import Mathlib

/-!
Verification of the OCL cross-section viewer geometry (src/app.py).

The application reads five slider parameters (integers in [0,1000], nm)
and builds 2D polygons: a lens body (pedestal rectangle plus elliptical
dome) and three "horn" features with smoothed quadratic side profiles.
The geometry is embedded here over the reals; the five parameters are
naturals, matching the integer sliders.
-/

namespace OCL

noncomputable section

/-- Fixed lens footprint width, 1000 nm (1 pixel). -/
def ocl_base_width : ℝ := 1000

/-- Flattening ratio constant, declared in the source and shown in the
annotation text but never used in the surface equation. -/
def flattening : ℝ := 1.05

/-- Horizontal semi-axis of the dome: half the footprint width. -/
def a : ℝ := ocl_base_width / 2

/-- The five slider parameters (integer nm values). -/
structure Params where
  ocl_height : ℕ
  ocl_thickness : ℕ
  horn_width : ℕ
  horn_height : ℕ
  horn_pitch : ℕ

/-- All five slider values lie in the slider range [0, 1000]. -/
def Params.InRange (p : Params) : Prop :=
  p.ocl_height ≤ 1000 ∧ p.ocl_thickness ≤ 1000 ∧ p.horn_width ≤ 1000 ∧
    p.horn_height ≤ 1000 ∧ p.horn_pitch ≤ 1000

/-- The default slider values (700, 400, 240, 250, 320). -/
def defaultParams : Params := ⟨700, 400, 240, 250, 320⟩

/-- A degenerate slider setting: zero thickness, zero horn width, zero pitch. -/
def degenerateParams : Params := ⟨700, 0, 0, 250, 0⟩

/-- The pedestal height, an alias of ocl_height in the source. -/
def base_height (p : Params) : ℝ := p.ocl_height

/-- Surface height of the lens at horizontal position x (ocl_surface_height
in src/app.py): inside the footprint and with positive thickness, the upper
half-ellipse; otherwise the flat pedestal top. -/
def ocl_surface_height (p : Params) (x_pos : ℝ) : ℝ :=
  if |x_pos| ≤ a ∧ 0 < p.ocl_thickness then
    base_height p + p.ocl_thickness * Real.sqrt (1 - (x_pos / a) ^ 2)
  else
    base_height p

/-- The three horn center positions: -horn_pitch, 0, +horn_pitch. -/
def positions (p : Params) : List ℝ :=
  [-(p.horn_pitch : ℝ), 0, (p.horn_pitch : ℝ)]

/-- np.linspace lo hi n for n ≥ 2: the n points lo + (hi-lo)·i/(n-1). -/
def linspace (lo hi : ℝ) (n : ℕ) : List ℝ :=
  (List.range n).map fun i : ℕ => lo + (hi - lo) * (i : ℝ) / ((n : ℝ) - 1)

/-- Left edge of a horn footprint centered at c. -/
def x_left (p : Params) (c : ℝ) : ℝ := c - (p.horn_width : ℝ) / 2

/-- Right edge of a horn footprint centered at c. -/
def x_right (p : Params) (c : ℝ) : ℝ := c + (p.horn_width : ℝ) / 2

/-- Horn base: the surface sampled at 50 evenly spaced points across the
footprint. -/
def hornBase (p : Params) (c : ℝ) : List (ℝ × ℝ) :=
  (linspace (x_left p c) (x_right p c) 50).map fun x => (x, ocl_surface_height p x)

/-- The 40 side-curve parameter values t, evenly spaced over [0, 1]. -/
def t_values : List ℝ := linspace 0 1 40

/-- One point of the left side curve at parameter t: x runs from the left
footprint edge to the center, the height adds the quadratic ease-in curve. -/
def leftSidePoint (p : Params) (c : ℝ) (t : ℝ) : ℝ × ℝ :=
  (x_left p c + (c - x_left p c) * t,
    ocl_surface_height p (x_left p c + (c - x_left p c) * t) +
      (p.horn_height : ℝ) * (1 - (1 - t) ^ 2))

/-- One point of the right side curve at parameter t: x runs from the center
to the right footprint edge, the height adds the quadratic ease-out curve. -/
def rightSidePoint (p : Params) (c : ℝ) (t : ℝ) : ℝ × ℝ :=
  (c + (x_right p c - c) * t,
    ocl_surface_height p (c + (x_right p c - c) * t) +
      (p.horn_height : ℝ) * (1 - t ^ 2))

/-- The 40 points of the left side curve. -/
def hornLeftSide (p : Params) (c : ℝ) : List (ℝ × ℝ) :=
  t_values.map (leftSidePoint p c)

/-- The 40 points of the right side curve. -/
def hornRightSide (p : Params) (c : ℝ) : List (ℝ × ℝ) :=
  t_values.map (rightSidePoint p c)

/-- create_horn_with_ocl_base from src/app.py: base samples, then the right
side reversed without its first point, then the left side reversed without
its first and last points. -/
def create_horn_with_ocl_base (p : Params) (c : ℝ) : List (ℝ × ℝ) :=
  hornBase p c ++ (hornRightSide p c).reverse.drop 1 ++
    ((hornLeftSide p c).reverse.drop 1).dropLast

/-- The three horn polygons, one per center position. -/
def hornPolygons (p : Params) : List (List (ℝ × ℝ)) :=
  (positions p).map (create_horn_with_ocl_base p)

/-- The 500 lens sample abscissas across [-a, a]. -/
def x_lens : List ℝ := linspace (-a) a 500

/-- The 500 sampled dome points. -/
def lensDome (p : Params) : List (ℝ × ℝ) :=
  x_lens.map fun x => (x, ocl_surface_height p x)

/-- The lens outline: (-a,0), (-a,base), the dome samples, (a,base), (a,0),
matching the x_ocl_total / y_ocl_total concatenation in src/app.py. -/
def lensPolygon (p : Params) : List (ℝ × ℝ) :=
  [(-a, 0), (-a, base_height p)] ++ lensDome p ++ [(a, base_height p), (a, 0)]

/-- Vertical extent used for the view bounds. -/
def total_height (p : Params) : ℝ :=
  base_height p + (p.ocl_thickness : ℝ) + (p.horn_height : ℝ)

/-- Horizontal margin of the view. -/
def margin : ℝ := 100

/-- The x view bounds set by ax.set_xlim. -/
def xlim : ℝ × ℝ := (-a - margin, a + margin)

/-- The y view bounds set by ax.set_ylim. -/
def ylim (p : Params) : ℝ × ℝ := (-50, total_height p + 150)

/-- Both base endpoints of a horn carry the footprint edge abscissas. -/
def footprintSpans (p : Params) (c : ℝ) : Prop :=
  ((hornBase p c)[0]?).map Prod.fst = some (c - (p.horn_width : ℝ) / 2) ∧
    ((hornBase p c)[49]?).map Prod.fst = some (c + (p.horn_width : ℝ) / 2)

/- Basic facts about the constants. -/

theorem a_eq : a = 500 := by
  norm_num [a, ocl_base_width]

theorem defaultParams_inRange : defaultParams.InRange := by
  refine ⟨?_, ?_, ?_, ?_, ?_⟩ <;> norm_num [defaultParams]

/- Helper lemmas on linspace. -/

theorem linspace_length (lo hi : ℝ) (n : ℕ) : (linspace lo hi n).length = n := by
  rw [linspace, List.length_map, List.length_range]

theorem linspace_getElem (lo hi : ℝ) (n i : ℕ) (h : i < n) :
    (linspace lo hi n)[i]? = some (lo + (hi - lo) * i / ((n : ℝ) - 1)) := by
  rw [linspace, List.getElem?_map, List.getElem?_range h]
  rfl

/-- C1: inside the footprint and with positive thickness, the surface height
is exactly ocl_height + ocl_thickness * sqrt(1 - (x/a)^2); the flattening
constant does not enter the result. -/
theorem surface_height_dome (p : Params) (x : ℝ) (_hp : p.InRange)
    (hx : |x| ≤ a) (ht : 0 < p.ocl_thickness) :
    ocl_surface_height p x =
      (p.ocl_height : ℝ) + (p.ocl_thickness : ℝ) * Real.sqrt (1 - (x / a) ^ 2) := by
  rw [ocl_surface_height, if_pos ⟨hx, ht⟩, base_height]

theorem surface_height_dome_witness :
    ocl_surface_height defaultParams 0 =
      (700 : ℝ) + (400 : ℝ) * Real.sqrt (1 - ((0 : ℝ) / a) ^ 2) :=
  surface_height_dome defaultParams 0 defaultParams_inRange
    (by rw [a_eq]; norm_num) (by norm_num [defaultParams])

/-- C2: the surface height is exactly ocl_height outside the footprint, and
for every x when the thickness is zero. -/
theorem surface_height_flat (p : Params) (x : ℝ) :
    (a < |x| → ocl_surface_height p x = (p.ocl_height : ℝ)) ∧
      (p.ocl_thickness = 0 → ocl_surface_height p x = (p.ocl_height : ℝ)) := by
  constructor
  · intro h
    rw [ocl_surface_height, if_neg, base_height]
    rintro ⟨h1, -⟩
    exact absurd h (not_lt.mpr h1)
  · intro h
    rw [ocl_surface_height, if_neg, base_height]
    rintro ⟨-, h2⟩
    omega

theorem surface_height_flat_witness :
    ocl_surface_height defaultParams 600 = (700 : ℝ) :=
  (surface_height_flat defaultParams 600).1 (by rw [a_eq]; norm_num)

/- The surface height is an even function of x. -/

theorem ocl_surface_height_neg (p : Params) (x : ℝ) :
    ocl_surface_height p (-x) = ocl_surface_height p x := by
  rw [ocl_surface_height, ocl_surface_height, abs_neg, neg_div, neg_sq]

/- The surface height at the footprint edges is the pedestal height, with or
without a dome. -/

theorem surface_edge_right (p : Params) : ocl_surface_height p a = base_height p := by
  rw [ocl_surface_height]
  split_ifs with h
  · norm_num [a_eq]
  · rfl

theorem surface_edge_left (p : Params) : ocl_surface_height p (-a) = base_height p := by
  rw [ocl_surface_height_neg, surface_edge_right]

/- Pointwise bounds on the surface height. -/

theorem base_le_surface (p : Params) (x : ℝ) :
    base_height p ≤ ocl_surface_height p x := by
  rw [ocl_surface_height]
  split_ifs with h
  · have h1 : 0 ≤ (p.ocl_thickness : ℝ) * Real.sqrt (1 - (x / a) ^ 2) :=
      mul_nonneg (Nat.cast_nonneg _) (Real.sqrt_nonneg _)
    linarith
  · exact le_refl _

theorem surface_le_base_add (p : Params) (x : ℝ) :
    ocl_surface_height p x ≤ base_height p + (p.ocl_thickness : ℝ) := by
  rw [ocl_surface_height]
  split_ifs with h
  · have h1 : Real.sqrt (1 - (x / a) ^ 2) ≤ 1 :=
      Real.sqrt_le_one.mpr (by nlinarith [sq_nonneg (x / a)])
    have h2 : (p.ocl_thickness : ℝ) * Real.sqrt (1 - (x / a) ^ 2) ≤
        (p.ocl_thickness : ℝ) * 1 :=
      mul_le_mul_of_nonneg_left h1 (Nat.cast_nonneg _)
    linarith
  · have h1 : (0 : ℝ) ≤ (p.ocl_thickness : ℝ) := Nat.cast_nonneg _
    linarith

/- Lengths of the sampled lists. -/

theorem t_values_length : t_values.length = 40 := by
  rw [t_values, linspace_length]

theorem hornBase_length (p : Params) (c : ℝ) : (hornBase p c).length = 50 := by
  rw [hornBase, List.length_map, linspace_length]

theorem hornLeftSide_length (p : Params) (c : ℝ) : (hornLeftSide p c).length = 40 := by
  rw [hornLeftSide, List.length_map, t_values_length]

theorem hornRightSide_length (p : Params) (c : ℝ) : (hornRightSide p c).length = 40 := by
  rw [hornRightSide, List.length_map, t_values_length]

/- Indexed access to the sampled lists. -/

theorem hornBase_getElem (p : Params) (c : ℝ) (i : ℕ) (h : i < 50) :
    (hornBase p c)[i]? =
      some (x_left p c + (x_right p c - x_left p c) * (i : ℝ) / 49,
        ocl_surface_height p
          (x_left p c + (x_right p c - x_left p c) * (i : ℝ) / 49)) := by
  rw [hornBase, List.getElem?_map, linspace_getElem _ _ _ _ h, Option.map_some']
  norm_num

theorem hornLeftSide_getElem (p : Params) (c : ℝ) (i : ℕ) (h : i < 40) :
    (hornLeftSide p c)[i]? = some (leftSidePoint p c ((i : ℝ) / 39)) := by
  rw [hornLeftSide, List.getElem?_map, t_values, linspace_getElem _ _ _ _ h,
    Option.map_some']
  norm_num

theorem hornRightSide_getElem (p : Params) (c : ℝ) (i : ℕ) (h : i < 40) :
    (hornRightSide p c)[i]? = some (rightSidePoint p c ((i : ℝ) / 39)) := by
  rw [hornRightSide, List.getElem?_map, t_values, linspace_getElem _ _ _ _ h,
    Option.map_some']
  norm_num

/- The side curves at their endpoint parameters. -/

theorem leftSidePoint_zero (p : Params) (c : ℝ) :
    leftSidePoint p c 0 = (x_left p c, ocl_surface_height p (x_left p c)) := by
  rw [leftSidePoint]
  norm_num

theorem leftSidePoint_one (p : Params) (c : ℝ) :
    leftSidePoint p c 1 = (c, ocl_surface_height p c + (p.horn_height : ℝ)) := by
  rw [leftSidePoint]
  have h : x_left p c + (c - x_left p c) * 1 = c := by ring
  rw [h]
  norm_num

theorem rightSidePoint_zero (p : Params) (c : ℝ) :
    rightSidePoint p c 0 = (c, ocl_surface_height p c + (p.horn_height : ℝ)) := by
  rw [rightSidePoint]
  norm_num

theorem rightSidePoint_one (p : Params) (c : ℝ) :
    rightSidePoint p c 1 = (x_right p c, ocl_surface_height p (x_right p c)) := by
  rw [rightSidePoint]
  have h : c + (x_right p c - c) * 1 = x_right p c := by ring
  rw [h]
  norm_num

/- The first and last base samples are the footprint edge points. -/

theorem hornBase_first (p : Params) (c : ℝ) :
    (hornBase p c)[0]? = some (x_left p c, ocl_surface_height p (x_left p c)) := by
  rw [hornBase_getElem p c 0 (by norm_num)]
  norm_num

theorem hornBase_last (p : Params) (c : ℝ) :
    (hornBase p c)[49]? = some (x_right p c, ocl_surface_height p (x_right p c)) := by
  rw [hornBase_getElem p c 49 (by norm_num)]
  have h : x_left p c + (x_right p c - x_left p c) * ((49 : ℕ) : ℝ) / 49 =
      x_right p c := by
    push_cast
    ring
  rw [h]

/- Vertex counts of the assembled polygons. -/

theorem create_horn_length (p : Params) (c : ℝ) :
    (create_horn_with_ocl_base p c).length = 127 := by
  rw [create_horn_with_ocl_base, List.length_append, List.length_append,
    hornBase_length, List.length_drop, List.length_reverse, hornRightSide_length,
    List.length_dropLast, List.length_drop, List.length_reverse,
    hornLeftSide_length]

theorem hornPolygons_length (p : Params) : (hornPolygons p).length = 3 := by
  rw [hornPolygons, List.length_map, positions]
  rfl

/-- C3: the smoothed horn sides have zero height contribution at the footprint
edges (left curve at t=0 gives the surface at x_left, right curve at t=1 gives
the surface at x_right), and both curves reach the shared apex
(center, surface_height(center) + horn_height) at t=1 on the left and t=0 on
the right. -/
theorem horn_side_endpoints (p : Params) (c : ℝ) :
    (hornLeftSide p c)[0]? = some (x_left p c, ocl_surface_height p (x_left p c)) ∧
      (hornRightSide p c)[39]? =
        some (x_right p c, ocl_surface_height p (x_right p c)) ∧
      (hornLeftSide p c)[39]? =
        some (c, ocl_surface_height p c + (p.horn_height : ℝ)) ∧
      (hornRightSide p c)[0]? =
        some (c, ocl_surface_height p c + (p.horn_height : ℝ)) := by
  refine ⟨?_, ?_, ?_, ?_⟩
  · rw [hornLeftSide_getElem p c 0 (by norm_num)]
    norm_num [leftSidePoint_zero]
  · rw [hornRightSide_getElem p c 39 (by norm_num)]
    norm_num [rightSidePoint_one]
  · rw [hornLeftSide_getElem p c 39 (by norm_num)]
    norm_num [leftSidePoint_one]
  · rw [hornRightSide_getElem p c 0 (by norm_num)]
    norm_num [rightSidePoint_zero]

/-- C4: the horn polygon is the 50 base samples, then the 39 reversed
right-side points with the first dropped, then the 38 reversed left-side
points with the first and last dropped, 127 vertices in all; each dropped
point coincides with a kept vertex (base-right corner, apex, base-left
start), so no vertex is duplicated at the junctions. -/
theorem horn_polygon_assembly (p : Params) (c : ℝ) :
    create_horn_with_ocl_base p c =
        hornBase p c ++ (hornRightSide p c).reverse.drop 1 ++
          ((hornLeftSide p c).reverse.drop 1).dropLast ∧
      (hornBase p c).length = 50 ∧
      ((hornRightSide p c).reverse.drop 1).length = 39 ∧
      (((hornLeftSide p c).reverse.drop 1).dropLast).length = 38 ∧
      (create_horn_with_ocl_base p c).length = 127 ∧
      (hornBase p c)[49]? = some (x_right p c, ocl_surface_height p (x_right p c)) ∧
      (hornRightSide p c).reverse[0]? =
        some (x_right p c, ocl_surface_height p (x_right p c)) ∧
      (hornRightSide p c).reverse[39]? =
        some (c, ocl_surface_height p c + (p.horn_height : ℝ)) ∧
      (hornLeftSide p c).reverse[0]? =
        some (c, ocl_surface_height p c + (p.horn_height : ℝ)) ∧
      (hornLeftSide p c).reverse[39]? =
        some (x_left p c, ocl_surface_height p (x_left p c)) ∧
      (hornBase p c)[0]? = some (x_left p c, ocl_surface_height p (x_left p c)) := by
  refine ⟨rfl, hornBase_length p c, ?_, ?_, ?_, hornBase_last p c, ?_, ?_, ?_, ?_,
    hornBase_first p c⟩
  · rw [List.length_drop, List.length_reverse, hornRightSide_length]
  · rw [List.length_dropLast, List.length_drop, List.length_reverse,
      hornLeftSide_length]
  · exact create_horn_length p c
  · rw [List.getElem?_reverse (by rw [hornRightSide_length]; norm_num)]
    rw [hornRightSide_length]
    norm_num
    rw [hornRightSide_getElem p c 39 (by norm_num)]
    norm_num [rightSidePoint_one]
  · rw [List.getElem?_reverse (by rw [hornRightSide_length]; norm_num)]
    rw [hornRightSide_length]
    norm_num
    rw [hornRightSide_getElem p c 0 (by norm_num)]
    norm_num [rightSidePoint_zero]
  · rw [List.getElem?_reverse (by rw [hornLeftSide_length]; norm_num)]
    rw [hornLeftSide_length]
    norm_num
    rw [hornLeftSide_getElem p c 39 (by norm_num)]
    norm_num [leftSidePoint_one]
  · rw [List.getElem?_reverse (by rw [hornLeftSide_length]; norm_num)]
    rw [hornLeftSide_length]
    norm_num
    rw [hornLeftSide_getElem p c 0 (by norm_num)]
    norm_num [leftSidePoint_zero]

/- Indexed access to the lens dome samples. -/

theorem lensDome_length (p : Params) : (lensDome p).length = 500 := by
  rw [lensDome, List.length_map, x_lens, linspace_length]

theorem lensDome_getElem (p : Params) (i : ℕ) (h : i < 500) :
    (lensDome p)[i]? =
      some (-a + (a - -a) * (i : ℝ) / 499,
        ocl_surface_height p (-a + (a - -a) * (i : ℝ) / 499)) := by
  rw [lensDome, List.getElem?_map, x_lens, linspace_getElem _ _ _ _ h,
    Option.map_some']
  norm_num

/-- C5: the lens polygon is (-a,0), (-a,ocl_height), the 500 dome samples in
strictly increasing x order, then (a,ocl_height), (a,0); the first and last
dome samples land exactly on (-a, ocl_height) and (a, ocl_height). -/
theorem lens_polygon_outline (p : Params) (_ht : 0 < p.ocl_thickness) :
    lensPolygon p =
        [(-a, 0), (-a, base_height p)] ++
          (linspace (-a) a 500).map (fun x => (x, ocl_surface_height p x)) ++
          [(a, base_height p), (a, 0)] ∧
      (lensPolygon p).length = 504 ∧
      (lensDome p)[0]? = some (-a, base_height p) ∧
      (lensDome p)[499]? = some (a, base_height p) ∧
      ((lensDome p).map Prod.fst).Pairwise (· < ·) := by
  refine ⟨rfl, ?_, ?_, ?_, ?_⟩
  · rw [lensPolygon, List.length_append, List.length_append, lensDome_length]
    rfl
  · rw [lensDome_getElem p 0 (by norm_num)]
    norm_num [surface_edge_left]
  · rw [lensDome_getElem p 499 (by norm_num)]
    have h : -a + (a - -a) * ((499 : ℕ) : ℝ) / 499 = a := by
      push_cast
      ring
    rw [h, surface_edge_right]
  · have hmap : (lensDome p).map Prod.fst = x_lens := by
      rw [lensDome, List.map_map]
      exact List.map_id x_lens
    rw [hmap, x_lens, linspace, List.pairwise_map]
    refine List.Pairwise.imp ?_ (List.pairwise_lt_range 500)
    intro i j hij
    have hc : (i : ℝ) < (j : ℝ) := Nat.cast_lt.mpr hij
    have ha : (0 : ℝ) < a - -a := by rw [a_eq]; norm_num
    have h499 : ((500 : ℕ) : ℝ) - 1 = 499 := by norm_num
    rw [h499]
    have := mul_lt_mul_of_pos_left hc ha
    linarith

theorem lens_polygon_outline_witness :
    (lensPolygon defaultParams).length = 504 :=
  (lens_polygon_outline defaultParams (by norm_num [defaultParams])).2.1

/-- C6: the view bounds are x from -a-100 to a+100, i.e. [-600, 600], and
y from -50 to ocl_height + ocl_thickness + horn_height + 150, which is 1500
at the default parameters. -/
theorem view_bounds (p : Params) :
    xlim = (-600, 600) ∧
      ylim p =
        (-50, (p.ocl_height : ℝ) + (p.ocl_thickness : ℝ) + (p.horn_height : ℝ) + 150) ∧
      (ylim defaultParams).2 = 1500 := by
  refine ⟨?_, ?_, ?_⟩
  · rw [xlim, margin, a_eq]
    norm_num
  · rw [ylim, total_height, base_height]
  · norm_num [ylim, total_height, base_height, defaultParams]

/- Each horn base starts and ends at the footprint edges. -/

theorem footprintSpans_all (p : Params) (c : ℝ) : footprintSpans p c := by
  constructor
  · rw [hornBase_first]
    simp [x_left]
  · rw [hornBase_last]
    simp [x_right]

/-- C7: exactly three horn polygons are produced, at centers -horn_pitch, 0,
+horn_pitch (a set symmetric about x = 0), and each horn base spans
[center - horn_width/2, center + horn_width/2]. -/
theorem three_horns (p : Params) :
    (hornPolygons p).length = 3 ∧
      positions p = [-(p.horn_pitch : ℝ), 0, (p.horn_pitch : ℝ)] ∧
      hornPolygons p =
        [create_horn_with_ocl_base p (-(p.horn_pitch : ℝ)),
          create_horn_with_ocl_base p 0,
          create_horn_with_ocl_base p ((p.horn_pitch : ℝ))] ∧
      ((positions p).map fun x => -x) = (positions p).reverse ∧
      footprintSpans p (-(p.horn_pitch : ℝ)) ∧ footprintSpans p 0 ∧
        footprintSpans p ((p.horn_pitch : ℝ)) := by
  refine ⟨hornPolygons_length p, rfl, rfl, ?_, footprintSpans_all p _,
    footprintSpans_all p _, footprintSpans_all p _⟩
  simp [positions]

/- Reversal and reflection identities for linspace. -/

theorem linspace_reverse (lo hi : ℝ) (n : ℕ) (hn : 2 ≤ n) :
    (linspace lo hi n).reverse = linspace hi lo n := by
  apply List.ext_getElem?
  intro i
  by_cases h : i < n
  · rw [List.getElem?_reverse (by rw [linspace_length]; exact h), linspace_length,
      linspace_getElem _ _ _ _ (by omega), linspace_getElem _ _ _ _ h]
    have hc : ((n - 1 - i : ℕ) : ℝ) = (n : ℝ) - 1 - (i : ℝ) := by
      rw [Nat.cast_sub (by omega), Nat.cast_sub (by omega), Nat.cast_one]
    rw [hc]
    have hne : (n : ℝ) - 1 ≠ 0 := by
      have h2 : (2 : ℝ) ≤ (n : ℝ) := by exact_mod_cast hn
      linarith
    congr 1
    field_simp
    ring
  · have e1 : (linspace lo hi n).reverse.length ≤ i := by
      rw [List.length_reverse, linspace_length]
      omega
    have e2 : (linspace hi lo n).length ≤ i := by
      rw [linspace_length]
      omega
    rw [List.getElem?_eq_none e1, List.getElem?_eq_none e2]

theorem linspace_neg (lo hi : ℝ) (n : ℕ) :
    (linspace lo hi n).map (fun x => -x) = linspace (-lo) (-hi) n := by
  rw [linspace, linspace, List.map_map]
  apply List.map_congr_left
  intro i _
  show -(lo + (hi - lo) * (i : ℝ) / ((n : ℝ) - 1)) =
    -lo + (-hi - -lo) * (i : ℝ) / ((n : ℝ) - 1)
  ring

theorem linspace_flip (lo hi : ℝ) (n : ℕ) :
    linspace hi lo n = (linspace lo hi n).map (fun x => lo + hi - x) := by
  rw [linspace, linspace, List.map_map]
  apply List.map_congr_left
  intro i _
  show hi + (lo - hi) * (i : ℝ) / ((n : ℝ) - 1) =
    lo + hi - (lo + (hi - lo) * (i : ℝ) / ((n : ℝ) - 1))
  ring

/- Mirror symmetry of the horn construction about x = 0. -/

theorem leftSidePoint_mirror (p : Params) (c t : ℝ) :
    leftSidePoint p (-c) t =
      (fun v : ℝ × ℝ => (-v.1, v.2)) (rightSidePoint p c (1 - t)) := by
  rw [leftSidePoint, rightSidePoint, Prod.ext_iff]
  have hx : x_left p (-c) + (-c - x_left p (-c)) * t =
      -(c + (x_right p c - c) * (1 - t)) := by
    rw [x_left, x_right]
    ring
  constructor
  · exact hx
  · show ocl_surface_height p (x_left p (-c) + (-c - x_left p (-c)) * t) +
        (p.horn_height : ℝ) * (1 - (1 - t) ^ 2) =
      ocl_surface_height p (c + (x_right p c - c) * (1 - t)) +
        (p.horn_height : ℝ) * (1 - (1 - t) ^ 2)
    rw [hx, ocl_surface_height_neg]

theorem rightSidePoint_mirror (p : Params) (c t : ℝ) :
    rightSidePoint p (-c) t =
      (fun v : ℝ × ℝ => (-v.1, v.2)) (leftSidePoint p c (1 - t)) := by
  rw [rightSidePoint, leftSidePoint, Prod.ext_iff]
  have hx : -c + (x_right p (-c) - -c) * t =
      -(x_left p c + (c - x_left p c) * (1 - t)) := by
    rw [x_left, x_right]
    ring
  constructor
  · exact hx
  · show ocl_surface_height p (-c + (x_right p (-c) - -c) * t) +
        (p.horn_height : ℝ) * (1 - t ^ 2) =
      ocl_surface_height p (x_left p c + (c - x_left p c) * (1 - t)) +
        (p.horn_height : ℝ) * (1 - (1 - (1 - t)) ^ 2)
    rw [hx, ocl_surface_height_neg]
    ring_nf

theorem hornLeftSide_mirror (p : Params) (c : ℝ) :
    hornLeftSide p (-c) =
      ((hornRightSide p c).map fun v => (-v.1, v.2)).reverse := by
  rw [hornLeftSide, hornRightSide, List.map_map, ← List.map_reverse, t_values,
    linspace_reverse 0 1 40 (by norm_num), linspace_flip 0 1 40, List.map_map]
  apply List.map_congr_left
  intro t _
  show leftSidePoint p (-c) t =
    (fun v : ℝ × ℝ => (-v.1, v.2)) (rightSidePoint p c (0 + 1 - t))
  rw [(by ring : (0 : ℝ) + 1 - t = 1 - t)]
  exact leftSidePoint_mirror p c t

theorem hornRightSide_mirror (p : Params) (c : ℝ) :
    hornRightSide p (-c) =
      ((hornLeftSide p c).map fun v => (-v.1, v.2)).reverse := by
  rw [hornRightSide, hornLeftSide, List.map_map, ← List.map_reverse, t_values,
    linspace_reverse 0 1 40 (by norm_num), linspace_flip 0 1 40, List.map_map]
  apply List.map_congr_left
  intro t _
  show rightSidePoint p (-c) t =
    (fun v : ℝ × ℝ => (-v.1, v.2)) (leftSidePoint p c (0 + 1 - t))
  rw [(by ring : (0 : ℝ) + 1 - t = 1 - t)]
  exact rightSidePoint_mirror p c t

theorem hornBase_mirror (p : Params) (c : ℝ) :
    hornBase p (-c) = ((hornBase p c).map fun v => (-v.1, v.2)).reverse := by
  rw [hornBase, hornBase, List.map_map, ← List.map_reverse,
    linspace_reverse _ _ 50 (by norm_num),
    (by rw [x_left, x_right]; ring : x_left p (-c) = -(x_right p c)),
    (by rw [x_left, x_right]; ring : x_right p (-c) = -(x_left p c)),
    ← linspace_neg, List.map_map]
  apply List.map_congr_left
  intro x _
  show ((-x : ℝ), ocl_surface_height p (-x)) = (-x, ocl_surface_height p x)
  rw [ocl_surface_height_neg]

/-- C9: the surface height is even, and the horn at center -horn_pitch is the
mirror image of the horn at +horn_pitch: each left-side point at parameter t
equals the x-negation of the right-side point at parameter 1-t (and
conversely), and the base sample lists mirror pairwise. -/
theorem mirror_symmetry (p : Params) (t : ℝ) :
    ocl_surface_height p (-t) = ocl_surface_height p t ∧
      leftSidePoint p (-(p.horn_pitch : ℝ)) t =
        (fun v : ℝ × ℝ => (-v.1, v.2))
          (rightSidePoint p ((p.horn_pitch : ℝ)) (1 - t)) ∧
      hornLeftSide p (-(p.horn_pitch : ℝ)) =
        ((hornRightSide p ((p.horn_pitch : ℝ))).map fun v => (-v.1, v.2)).reverse ∧
      hornRightSide p (-(p.horn_pitch : ℝ)) =
        ((hornLeftSide p ((p.horn_pitch : ℝ))).map fun v => (-v.1, v.2)).reverse ∧
      hornBase p (-(p.horn_pitch : ℝ)) =
        ((hornBase p ((p.horn_pitch : ℝ))).map fun v => (-v.1, v.2)).reverse :=
  ⟨ocl_surface_height_neg p t, leftSidePoint_mirror p _ t,
    hornLeftSide_mirror p _, hornRightSide_mirror p _, hornBase_mirror p _⟩

/- Every side-curve parameter lies in [0, 1]. -/

theorem mem_t_values {t : ℝ} (h : t ∈ t_values) : 0 ≤ t ∧ t ≤ 1 := by
  rw [t_values, linspace] at h
  simp only [List.mem_map, List.mem_range] at h
  obtain ⟨i, hi, rfl⟩ := h
  have he : (0 : ℝ) + (1 - 0) * (i : ℝ) / (((40 : ℕ) : ℝ) - 1) = (i : ℝ) / 39 := by
    push_cast
    ring
  rw [he]
  have hle : (i : ℝ) ≤ 39 := by exact_mod_cast (by omega : i ≤ 39)
  constructor
  · positivity
  · rw [div_le_one (by norm_num)]
    exact hle

/- Height bounds for the side-curve points. -/

theorem leftSidePoint_snd_bounds (p : Params) (c t : ℝ) (h0 : 0 ≤ t) (h1 : t ≤ 1) :
    0 ≤ (leftSidePoint p c t).2 ∧ (leftSidePoint p c t).2 ≤ total_height p := by
  rw [leftSidePoint, total_height]
  have hs1 := base_le_surface p (x_left p c + (c - x_left p c) * t)
  have hs2 := surface_le_base_add p (x_left p c + (c - x_left p c) * t)
  have hb : (0 : ℝ) ≤ base_height p := Nat.cast_nonneg _
  have hh : (0 : ℝ) ≤ (p.horn_height : ℝ) := Nat.cast_nonneg _
  constructor
  · have hq : 0 ≤ (p.horn_height : ℝ) * (1 - (1 - t) ^ 2) := by
      have : 0 ≤ 1 - (1 - t) ^ 2 := by nlinarith
      exact mul_nonneg hh this
    show 0 ≤ ocl_surface_height p (x_left p c + (c - x_left p c) * t) +
      (p.horn_height : ℝ) * (1 - (1 - t) ^ 2)
    linarith
  · have hq : (p.horn_height : ℝ) * (1 - (1 - t) ^ 2) ≤ (p.horn_height : ℝ) := by
      nlinarith [sq_nonneg (1 - t)]
    show ocl_surface_height p (x_left p c + (c - x_left p c) * t) +
        (p.horn_height : ℝ) * (1 - (1 - t) ^ 2) ≤
      base_height p + (p.ocl_thickness : ℝ) + (p.horn_height : ℝ)
    linarith

theorem rightSidePoint_snd_bounds (p : Params) (c t : ℝ) (h0 : 0 ≤ t) (h1 : t ≤ 1) :
    0 ≤ (rightSidePoint p c t).2 ∧ (rightSidePoint p c t).2 ≤ total_height p := by
  rw [rightSidePoint, total_height]
  have hs1 := base_le_surface p (c + (x_right p c - c) * t)
  have hs2 := surface_le_base_add p (c + (x_right p c - c) * t)
  have hb : (0 : ℝ) ≤ base_height p := Nat.cast_nonneg _
  have hh : (0 : ℝ) ≤ (p.horn_height : ℝ) := Nat.cast_nonneg _
  constructor
  · have hq : 0 ≤ (p.horn_height : ℝ) * (1 - t ^ 2) := by
      have : 0 ≤ 1 - t ^ 2 := by nlinarith
      exact mul_nonneg hh this
    show 0 ≤ ocl_surface_height p (c + (x_right p c - c) * t) +
      (p.horn_height : ℝ) * (1 - t ^ 2)
    linarith
  · have hq : (p.horn_height : ℝ) * (1 - t ^ 2) ≤ (p.horn_height : ℝ) := by
      nlinarith [sq_nonneg t]
    show ocl_surface_height p (c + (x_right p c - c) * t) +
        (p.horn_height : ℝ) * (1 - t ^ 2) ≤
      base_height p + (p.ocl_thickness : ℝ) + (p.horn_height : ℝ)
    linarith

/- Height bounds for every vertex of a horn polygon. -/

theorem horn_vertex_bounds (p : Params) (c : ℝ) (v : ℝ × ℝ)
    (hv : v ∈ create_horn_with_ocl_base p c) :
    0 ≤ v.2 ∧ v.2 ≤ total_height p := by
  have hb : (0 : ℝ) ≤ base_height p := Nat.cast_nonneg _
  have hh : (0 : ℝ) ≤ (p.horn_height : ℝ) := Nat.cast_nonneg _
  rw [create_horn_with_ocl_base] at hv
  rcases List.mem_append.mp hv with hv | hv
  · rcases List.mem_append.mp hv with hv | hv
    · rw [hornBase] at hv
      obtain ⟨x, -, rfl⟩ := List.mem_map.mp hv
      have h1 := base_le_surface p x
      have h2 := surface_le_base_add p x
      rw [total_height]
      exact ⟨by simpa using le_trans hb h1, by show ocl_surface_height p x ≤ _; linarith⟩
    · have hv2 : v ∈ hornRightSide p c :=
        List.mem_reverse.mp (List.mem_of_mem_drop hv)
      rw [hornRightSide] at hv2
      obtain ⟨t, htv, rfl⟩ := List.mem_map.mp hv2
      obtain ⟨h0, h1⟩ := mem_t_values htv
      exact rightSidePoint_snd_bounds p c t h0 h1
  · have hv2 : v ∈ hornLeftSide p c :=
      List.mem_reverse.mp (List.mem_of_mem_drop (List.dropLast_subset _ hv))
    rw [hornLeftSide] at hv2
    obtain ⟨t, htv, rfl⟩ := List.mem_map.mp hv2
    obtain ⟨h0, h1⟩ := mem_t_values htv
    exact leftSidePoint_snd_bounds p c t h0 h1

/- Height bounds for every vertex of the lens polygon. -/

theorem lens_vertex_bounds (p : Params) (v : ℝ × ℝ) (hv : v ∈ lensPolygon p) :
    0 ≤ v.2 ∧ v.2 ≤ total_height p := by
  have hb : (0 : ℝ) ≤ base_height p := Nat.cast_nonneg _
  have hth : (0 : ℝ) ≤ (p.ocl_thickness : ℝ) := Nat.cast_nonneg _
  have hh : (0 : ℝ) ≤ (p.horn_height : ℝ) := Nat.cast_nonneg _
  rw [lensPolygon] at hv
  simp only [List.mem_append, List.mem_cons, List.not_mem_nil, or_false] at hv
  rcases hv with ((rfl | rfl) | hv) | (rfl | rfl)
  · exact ⟨le_refl 0, by rw [total_height]; show (0:ℝ) ≤ _; linarith⟩
  · refine ⟨hb, ?_⟩
    rw [total_height]
    show base_height p ≤ _
    linarith
  · rw [lensDome] at hv
    obtain ⟨x, -, rfl⟩ := List.mem_map.mp hv
    have h1 := base_le_surface p x
    have h2 := surface_le_base_add p x
    rw [total_height]
    exact ⟨by simpa using le_trans hb h1, by show ocl_surface_height p x ≤ _; linarith⟩
  · refine ⟨hb, ?_⟩
    rw [total_height]
    show base_height p ≤ _
    linarith
  · exact ⟨le_refl 0, by rw [total_height]; show (0:ℝ) ≤ _; linarith⟩

/-- C10: for slider values in range, every vertex of the lens polygon and of
each horn polygon has height in [0, ocl_height + ocl_thickness + horn_height],
and this interval sits inside the y view bounds. -/
theorem geometry_in_bounds (p : Params) (_hp : p.InRange) :
    (∀ v ∈ lensPolygon p, 0 ≤ v.2 ∧ v.2 ≤ total_height p) ∧
      (∀ poly ∈ hornPolygons p, ∀ v ∈ poly, 0 ≤ v.2 ∧ v.2 ≤ total_height p) ∧
      (ylim p).1 ≤ 0 ∧ total_height p ≤ (ylim p).2 := by
  refine ⟨fun v hv => lens_vertex_bounds p v hv, ?_, ?_, ?_⟩
  · intro poly hpoly v hv
    rw [hornPolygons] at hpoly
    obtain ⟨c, -, rfl⟩ := List.mem_map.mp hpoly
    exact horn_vertex_bounds p c v hv
  · rw [ylim]
    norm_num
  · rw [ylim]
    show total_height p ≤ total_height p + 150
    linarith

theorem geometry_in_bounds_witness :
    0 ≤ ((-a, (0 : ℝ)) : ℝ × ℝ).2 ∧
      ((-a, (0 : ℝ)) : ℝ × ℝ).2 ≤ total_height defaultParams :=
  (geometry_in_bounds defaultParams defaultParams_inRange).1 (-a, 0)
    (by simp [lensPolygon])

theorem degenerateParams_inRange : degenerateParams.InRange := by
  refine ⟨?_, ?_, ?_, ?_, ?_⟩ <;> norm_num [degenerateParams]

/-- C8: the geometry is total and safe: inside the footprint the square-root
argument 1 - (x/a)^2 is nonnegative, the divisors a = 500 and 2 are nonzero
fixed constants, and the degenerate settings ocl_thickness = 0,
horn_width = 0 and horn_pitch = 0 still yield well-defined results. -/
theorem geometry_total_safe (p : Params) (x : ℝ) (_hp : p.InRange) :
    (|x| ≤ a → 0 ≤ 1 - (x / a) ^ 2) ∧
      a = 500 ∧ a ≠ 0 ∧ ((2 : ℝ) ≠ 0) ∧
      (p.ocl_thickness = 0 → ocl_surface_height p x = base_height p) ∧
      (p.horn_width = 0 → (create_horn_with_ocl_base p x).length = 127) ∧
      (p.horn_pitch = 0 → (hornPolygons p).length = 3) := by
  refine ⟨?_, a_eq, by rw [a_eq]; norm_num, by norm_num, ?_, ?_, ?_⟩
  · intro h
    rw [a_eq] at h ⊢
    have h1 : x ^ 2 ≤ 500 ^ 2 := by nlinarith [sq_abs x, abs_nonneg x]
    rw [div_pow, sub_nonneg, div_le_one (by norm_num)]
    exact h1
  · intro h
    rw [ocl_surface_height, if_neg]
    rintro ⟨-, h2⟩
    omega
  · intro _
    exact create_horn_length p x
  · intro _
    exact hornPolygons_length p

theorem geometry_total_safe_witness :
    0 ≤ 1 - ((0 : ℝ) / a) ^ 2 ∧
      ocl_surface_height degenerateParams 0 = base_height degenerateParams ∧
      (create_horn_with_ocl_base degenerateParams 0).length = 127 ∧
      (hornPolygons degenerateParams).length = 3 :=
  ⟨(geometry_total_safe degenerateParams 0 degenerateParams_inRange).1
      (by rw [a_eq]; norm_num),
    (geometry_total_safe degenerateParams 0 degenerateParams_inRange).2.2.2.2.1 rfl,
    (geometry_total_safe degenerateParams 0 degenerateParams_inRange).2.2.2.2.2.1 rfl,
    (geometry_total_safe degenerateParams 0 degenerateParams_inRange).2.2.2.2.2.2 rfl⟩

end

end OCL
